import Mathlib

/-!
Shallow embedding of `src/lib/boneMapping.ts`: the bone-name auto-mapping
resolver. Joint keys are strings (the TS `HumanoidJointKey` string-literal
union; `BONE_PATTERNS : Record<HumanoidJointKey, string[]>` is total, so the
union is exactly the 21 keys declared below). Confidences are rationals.
JavaScript strings here are ASCII, so lower-casing is modelled by an explicit
ASCII table. A call of `autoMapBones` whose joint list contains a key that is
not in the registry throws a `TypeError` in JavaScript (`for … of undefined`);
the embedding models the call's outcome as an `Option`, `none` for the throw.
-/

namespace BoneMapping

/-- Separator characters removed by `normalizeBoneName` and split on by
`tokenize`: the regex class `[_.\-: ]`. -/
def isSep (c : Char) : Bool :=
  c == '_' || c == '.' || c == '-' || c == ':' || c == ' '

/-- ASCII upper-to-lower case table: the effect of JavaScript
`toLowerCase()` on the ASCII strings this module handles. -/
def lowerPairs : List (Char × Char) :=
  [('A', 'a'), ('B', 'b'), ('C', 'c'), ('D', 'd'), ('E', 'e'), ('F', 'f'),
   ('G', 'g'), ('H', 'h'), ('I', 'i'), ('J', 'j'), ('K', 'k'), ('L', 'l'),
   ('M', 'm'), ('N', 'n'), ('O', 'o'), ('P', 'p'), ('Q', 'q'), ('R', 'r'),
   ('S', 's'), ('T', 't'), ('U', 'u'), ('V', 'v'), ('W', 'w'), ('X', 'x'),
   ('Y', 'y'), ('Z', 'z')]

/-- ASCII lower-casing of one character: an uppercase letter maps to its
lowercase pair, every other character is unchanged. -/
def lowerChar (c : Char) : Char :=
  ((lowerPairs.find? fun q => q.1 == c).map Prod.snd).getD c

/-- Char-list form of `stripPrefix`: the anchored regex
`/^(mixamorig[_:]?|DEF-|ORG-|MCH-)/` replaced by the empty string. The
alternative `mixamorig[_:]?` is greedy, so a separator right after
`mixamorig` is removed with it. -/
def stripPrefixChars (cs : List Char) : List Char :=
  if List.isPrefixOf "mixamorig:".data cs then cs.drop 10
  else if List.isPrefixOf "mixamorig_".data cs then cs.drop 10
  else if List.isPrefixOf "mixamorig".data cs then cs.drop 9
  else if List.isPrefixOf "DEF-".data cs then cs.drop 4
  else if List.isPrefixOf "ORG-".data cs then cs.drop 4
  else if List.isPrefixOf "MCH-".data cs then cs.drop 4
  else cs

/-- Source `stripPrefix(name)`: removes a known rig-namespace prefix anchored
at the start of the name; the name is unchanged when none matches. -/
def stripPrefix (name : String) : String :=
  String.mk (stripPrefixChars name.data)

/-- Source `normalizeBoneName(name)`: strip the prefix, lowercase, then
delete every separator character. -/
def normalizeBoneName (name : String) : String :=
  String.mk (((stripPrefixChars name.data).map lowerChar).filter fun c => !isSep c)

/-- Split a char list at every separator character. The source splits on
`/[_.\-: ]+/`; a run of separators here yields intermediate empty segments,
which `tokenize` drops just as it drops the empty segments the source regex
produces at the ends of the name. -/
def splitSeps (acc : List Char) : List Char → List (List Char)
  | [] => [acc.reverse]
  | c :: cs =>
    if isSep c then acc.reverse :: splitSeps [] cs
    else splitSeps (c :: acc) cs

/-- Whether the camelCase replaces of `tokenize` put a break between the
adjacent characters `c1` and `c2` (with `rest` following `c2`): the global
replace of `([a-z])([A-Z])` breaks between a lowercase and an uppercase
letter, and the global replace of `([A-Z]+)([A-Z][a-z])` breaks between two
uppercase letters followed by a lowercase one. -/
def camelBreak (c1 c2 : Char) (rest : List Char) : Bool :=
  (c1.isLower && c2.isUpper) ||
  (c1.isUpper && c2.isUpper &&
    (match rest with | c3 :: _ => c3.isLower | [] => false))

/-- Split one separator-free segment at every camelCase break. -/
def camelSplit (acc : List Char) : List Char → List (List Char)
  | [] => [acc.reverse]
  | [c] => [(c :: acc).reverse]
  | c1 :: c2 :: rest =>
    if camelBreak c1 c2 rest then
      (c1 :: acc).reverse :: camelSplit [] (c2 :: rest)
    else
      camelSplit (c1 :: acc) (c2 :: rest)

/-- Whether any adjacent position of the char list is a camelCase break:
the case-transition condition of the tokenizer, used to state when a name
splits into a single token. -/
def hasCamelBreak : List Char → Bool
  | c1 :: c2 :: rest => camelBreak c1 c2 rest || hasCamelBreak (c2 :: rest)
  | _ => false

/-- Source `tokenize(name)`: strip the prefix, split on separators, split
each segment at camelCase boundaries, lowercase every piece, drop empties. -/
def tokenize (name : String) : List String :=
  let stripped := stripPrefixChars name.data
  (splitSeps [] stripped).foldl
    (fun tokens part =>
      if part.isEmpty then tokens
      else
        tokens ++ (camelSplit [] part).filterMap fun cp =>
          if cp.isEmpty then none else some (String.mk (cp.map lowerChar)))
    []

/-- Source `wordBoundaryMatch(patternTokens, boneTokens)`: the pattern's
token list appears as a contiguous run inside the bone's token list. -/
def wordBoundaryMatch (patternTokens boneTokens : List String) : Bool :=
  if patternTokens.length == 0 || boneTokens.length == 0 then false
  else if patternTokens.length > boneTokens.length then false
  else
    (List.range (boneTokens.length - patternTokens.length + 1)).any fun start =>
      (List.range patternTokens.length).all fun i =>
        boneTokens.getD (start + i) "" == patternTokens.getD i ""

/-- Source `BONE_PATTERNS`: the pattern registry, one ordered alias list per
canonical joint, in declaration order. -/
def BONE_PATTERNS : List (String × List String) := [
  ("torso", ["torso", "Spine", "spine", "Spine1", "spine1", "Spine2", "spine2",
    "mixamorig:Spine", "mixamorigSpine", "Torso", "Chest", "chest",
    "Hips", "hips",
    "upperChest", "UpperChest",
    "spine_01", "spine_02", "spine_03",
    "DEF-spine.003", "DEF-spine.004"]),
  ("neckYaw", ["neckYaw", "Neck", "neck",
    "mixamorig:Neck", "mixamorigNeck",
    "neck_01",
    "DEF-spine.006"]),
  ("neckPitch", ["neckPitch", "Head", "head",
    "mixamorig:Head", "mixamorigHead",
    "head",
    "DEF-spine.007"]),
  ("leftShoulderPitch", ["leftShoulderPitch",
    "LeftArm", "mixamorig:LeftArm", "mixamorigLeftArm",
    "Left_Arm", "L_Arm", "Arm.L", "shoulder.L",
    "LeftUpperArm", "leftUpperArm",
    "upperarm_l",
    "DEF-upper_arm.L",
    "LeftArm", "lShldr"]),
  ("leftShoulderYaw", ["leftShoulderYaw",
    "LeftShoulder", "mixamorig:LeftShoulder", "mixamorigLeftShoulder",
    "Left_Shoulder", "L_Shoulder",
    "leftShoulder",
    "clavicle_l",
    "DEF-shoulder.L"]),
  ("leftElbow", ["leftElbow",
    "LeftForeArm", "LeftElbow",
    "mixamorig:LeftForeArm", "mixamorigLeftForeArm",
    "Left_ForeArm", "L_ForeArm", "forearm.L",
    "LeftLowerArm", "leftLowerArm",
    "Left_Elbow", "L_Elbow",
    "lowerarm_l",
    "DEF-forearm.L",
    "LeftForeArm", "lForeArm"]),
  ("leftWrist", ["leftWrist",
    "LeftHand", "LeftWrist",
    "mixamorig:LeftHand", "mixamorigLeftHand",
    "Left_Hand", "L_Hand", "hand.L",
    "leftHand",
    "hand_l",
    "DEF-hand.L"]),
  ("leftGrip", ["leftGrip",
    "LeftHandIndex1", "LeftHandThumb1",
    "mixamorig:LeftHandIndex1", "mixamorigLeftHandIndex1",
    "Left_Finger", "L_Finger", "LeftGrip",
    "LeftHandIndex", "LeftFinger",
    "leftIndexProximal",
    "index_01_l",
    "DEF-f_index.01.L"]),
  ("rightShoulderPitch", ["rightShoulderPitch",
    "RightArm", "mixamorig:RightArm", "mixamorigRightArm",
    "Right_Arm", "R_Arm", "Arm.R", "shoulder.R",
    "RightUpperArm", "rightUpperArm",
    "upperarm_r",
    "DEF-upper_arm.R",
    "RightArm", "rShldr"]),
  ("rightShoulderYaw", ["rightShoulderYaw",
    "RightShoulder", "mixamorig:RightShoulder", "mixamorigRightShoulder",
    "Right_Shoulder", "R_Shoulder",
    "rightShoulder",
    "clavicle_r",
    "DEF-shoulder.R"]),
  ("rightElbow", ["rightElbow",
    "RightForeArm", "RightElbow",
    "mixamorig:RightForeArm", "mixamorigRightForeArm",
    "Right_ForeArm", "R_ForeArm", "forearm.R",
    "RightLowerArm", "rightLowerArm",
    "Right_Elbow", "R_Elbow",
    "lowerarm_r",
    "DEF-forearm.R",
    "RightForeArm", "rForeArm"]),
  ("rightWrist", ["rightWrist",
    "RightHand", "RightWrist",
    "mixamorig:RightHand", "mixamorigRightHand",
    "Right_Hand", "R_Hand", "hand.R",
    "rightHand",
    "hand_r",
    "DEF-hand.R"]),
  ("rightGrip", ["rightGrip",
    "RightHandIndex1", "RightHandThumb1",
    "mixamorig:RightHandIndex1", "mixamorigRightHandIndex1",
    "Right_Finger", "R_Finger", "RightGrip",
    "RightHandIndex", "RightFinger",
    "rightIndexProximal",
    "index_01_r",
    "DEF-f_index.01.R"]),
  ("leftHipPitch", ["leftHipPitch",
    "LeftUpLeg", "mixamorig:LeftUpLeg", "mixamorigLeftUpLeg",
    "Left_UpLeg", "L_UpLeg", "thigh.L",
    "LeftUpperLeg", "leftUpperLeg",
    "LeftHip",
    "thigh_l",
    "DEF-thigh.L",
    "LeftUpLeg", "lThigh"]),
  ("leftHipYaw", ["leftHipYaw",
    "LeftHip", "mixamorig:LeftUpLeg", "mixamorigLeftUpLeg",
    "Left_Hip", "L_Hip",
    "leftHip"]),
  ("leftKnee", ["leftKnee",
    "LeftLeg", "LeftKnee",
    "mixamorig:LeftLeg", "mixamorigLeftLeg",
    "Left_Leg", "L_Leg", "shin.L",
    "LeftLowerLeg", "leftLowerLeg",
    "calf_l",
    "DEF-shin.L",
    "LeftLeg", "lShin"]),
  ("leftAnkle", ["leftAnkle",
    "LeftFoot", "LeftAnkle",
    "mixamorig:LeftFoot", "mixamorigLeftFoot",
    "Left_Foot", "L_Foot", "foot.L",
    "LeftToeBase", "leftFoot",
    "foot_l",
    "DEF-foot.L"]),
  ("rightHipPitch", ["rightHipPitch",
    "RightUpLeg", "mixamorig:RightUpLeg", "mixamorigRightUpLeg",
    "Right_UpLeg", "R_UpLeg", "thigh.R",
    "RightUpperLeg", "rightUpperLeg",
    "RightHip",
    "thigh_r",
    "DEF-thigh.R",
    "RightUpLeg", "rThigh"]),
  ("rightHipYaw", ["rightHipYaw",
    "RightHip", "mixamorig:RightUpLeg", "mixamorigRightUpLeg",
    "Right_Hip", "R_Hip",
    "rightHip"]),
  ("rightKnee", ["rightKnee",
    "RightLeg", "RightKnee",
    "mixamorig:RightLeg", "mixamorigRightLeg",
    "Right_Leg", "R_Leg", "shin.R",
    "RightLowerLeg", "rightLowerLeg",
    "calf_r",
    "DEF-shin.R",
    "RightLeg", "rShin"]),
  ("rightAnkle", ["rightAnkle",
    "RightFoot", "RightAnkle",
    "mixamorig:RightFoot", "mixamorigRightFoot",
    "Right_Foot", "R_Foot", "foot.R",
    "RightToeBase", "rightFoot",
    "foot_r",
    "DEF-foot.R"])]

/-- Source `ALL_JOINT_KEYS = Object.keys(BONE_PATTERNS)`: the joint keys in
declaration order. -/
def ALL_JOINT_KEYS : List String := BONE_PATTERNS.map Prod.fst

/-- Source interface `BoneMappingResult`. `matchPass` is one of the strings
"exact", "prefix-stripped", "normalized", "word-boundary". -/
structure BoneMappingResult where
  jointKey : String
  boneName : String
  confidence : ℚ
  matchPass : String
  deriving DecidableEq, Repr

/-- Source interface `AutoMappingResult`. -/
structure AutoMappingResult where
  mappings : List BoneMappingResult
  unmappedJoints : List String
  unmappedBones : List String
  overallConfidence : ℚ
  deriving DecidableEq, Repr

/-- Source interfaces `PreprocessedPattern` and `PreprocessedBone` share
these fields. -/
structure Preprocessed where
  original : String
  stripped : String
  normalized : String
  tokens : List String
  deriving DecidableEq, Repr

/-- Preprocess one name, as both the pattern-preprocessing loop and
`preprocessBones` do. -/
def preprocess (name : String) : Preprocessed :=
  { original := name
    stripped := stripPrefix name
    normalized := normalizeBoneName name
    tokens := tokenize name }

/-- Deduplication of one joint's alias list via the `seen` set: the first
occurrence of a repeated alias wins, order is preserved. -/
def dedupFirst (seen : List String) : List String → List String
  | [] => []
  | p :: rest =>
    if seen.contains p then dedupFirst seen rest
    else p :: dedupFirst (p :: seen) rest

/-- Source `preprocessedPatterns[jointKey]`: `none` models the `undefined`
a lookup with a key outside the registry yields. -/
def preprocessedPatterns (jointKey : String) : Option (List Preprocessed) :=
  (BONE_PATTERNS.lookup jointKey).map fun pats => (dedupFirst [] pats).map preprocess

/-- The preprocessed alias list the four passes iterate for a registry key. -/
def patternsOf (jointKey : String) : List Preprocessed :=
  (preprocessedPatterns jointKey).getD []

/-- Source map `boneByName`: built by insertion with overwrite, so a lookup
returns the last preprocessed bone with the given original name. -/
def boneByName (bones : List Preprocessed) (key : String) : Option Preprocessed :=
  bones.reverse.find? fun b => b.original == key

/-- Source map `boneByNormalized`: all bones sharing a normalized form, in
the caller's original order. The source also builds a `boneByStripped` map
(first occurrence per stripped form), but no pass ever reads it — pass 2
scans the bone list directly — so it is not modelled. -/
def boneByNormalized (bones : List Preprocessed) (key : String) : List Preprocessed :=
  bones.filter fun b => b.normalized == key

/-- Mutable state of the matching loops: the `usedBones` set (as the list of
claimed names), the `mappings` accumulator, and the `mappedJoints` set. -/
structure MapState where
  usedBones : List String
  mappings : List BoneMappingResult
  mappedJoints : List String
  deriving DecidableEq, Repr

/-- Confidence 1.0 of pass 1, as a rational in lowest terms. The raw
structure literal keeps kernel evaluation of the passes direct. -/
def confExact : ℚ := ⟨1, 1, by norm_num, by norm_num⟩

/-- Confidence 0.9 of pass 2, as a rational in lowest terms. -/
def confStripped : ℚ := ⟨9, 10, by norm_num, by norm_num⟩

/-- Confidence 0.8 of pass 3, as a rational in lowest terms. -/
def confNormalized : ℚ := ⟨4, 5, by norm_num, by norm_num⟩

/-- Confidence 0.6 of pass 4, as a rational in lowest terms. -/
def confWordBoundary : ℚ := ⟨3, 5, by norm_num, by norm_num⟩

/-- State change shared by every successful match: push the mapping record,
add the bone to `usedBones` and the joint to `mappedJoints`. -/
def claimStep (st : MapState) (j : String) (b : Preprocessed)
    (conf : ℚ) (pass : String) : MapState :=
  { usedBones := b.original :: st.usedBones
    mappings := st.mappings ++ [⟨j, b.original, conf, pass⟩]
    mappedJoints := j :: st.mappedJoints }

/-- Pass 1 body for one joint: first alias whose literal name is an unused
bone claims it with confidence 1.0. Pass 1 runs before `mappedJoints` is
built, so it has no already-mapped guard. -/
def pass1Joint (bones : List Preprocessed) (st : MapState) (j : String) : MapState :=
  match (patternsOf j).findSome? (fun p =>
      match boneByName bones p.original with
      | some b => if st.usedBones.contains b.original then none else some b
      | none => none) with
  | some b => claimStep st j b confExact "exact"
  | none => st

/-- Pass 2 body for one joint: first alias whose prefix-stripped form equals
an unused bone's prefix-stripped form, the raw names differing, claims it
with confidence 0.9. -/
def pass2Joint (bones : List Preprocessed) (st : MapState) (j : String) : MapState :=
  if st.mappedJoints.contains j then st
  else
    match (patternsOf j).findSome? (fun p =>
        bones.find? fun b =>
          !st.usedBones.contains b.original && b.stripped == p.stripped &&
            b.original != p.original) with
    | some b => claimStep st j b confStripped "prefix-stripped"
    | none => st

/-- Pass 3 body for one joint: first alias whose normalized form indexes a
bucket of `boneByNormalized` holding an unused bone claims the first such
bone with confidence 0.8. -/
def pass3Joint (bones : List Preprocessed) (st : MapState) (j : String) : MapState :=
  if st.mappedJoints.contains j then st
  else
    match (patternsOf j).findSome? (fun p =>
        (boneByNormalized bones p.normalized).find? fun b =>
          !st.usedBones.contains b.original) with
    | some b => claimStep st j b confNormalized "normalized"
    | none => st

/-- Pass 4 body for one joint: first alias with tokens, whose token list
appears contiguously in an unused bone's nonempty token list, claims that
bone with confidence 0.6. -/
def pass4Joint (bones : List Preprocessed) (st : MapState) (j : String) : MapState :=
  if st.mappedJoints.contains j then st
  else
    match (patternsOf j).findSome? (fun p =>
        if p.tokens.isEmpty then none
        else
          bones.find? fun b =>
            !st.usedBones.contains b.original && !b.tokens.isEmpty &&
              wordBoundaryMatch p.tokens b.tokens) with
    | some b => claimStep st j b confWordBoundary "word-boundary"
    | none => st

/-- The four passes of `autoMapBones` in sequence, for a joint list every
key of which is in the registry. After pass 1 the source builds
`mappedJoints` from the pass-1 mappings; here that is the third state field
entering pass 2. -/
def runPasses (boneNames : List String) (jointsToMap : List String) : MapState :=
  let bones := boneNames.map preprocess
  let st1 := jointsToMap.foldl (pass1Joint bones) ⟨[], [], []⟩
  let st2 := jointsToMap.foldl (pass2Joint bones)
    ⟨st1.usedBones, st1.mappings, st1.mappings.map BoneMappingResult.jointKey⟩
  let st3 := jointsToMap.foldl (pass3Joint bones) st2
  jointsToMap.foldl (pass4Joint bones) st3

/-- Final aggregation of `autoMapBones` over the state `st4` the four
passes left: the unmapped joints and bones and the overall confidence. -/
def aggregate (boneNames : List String) (jointsToMap : List String)
    (st4 : MapState) : AutoMappingResult :=
  { mappings := st4.mappings
    unmappedJoints := jointsToMap.filter fun j => !st4.mappedJoints.contains j
    unmappedBones := boneNames.filter fun b => !st4.usedBones.contains b
    overallConfidence :=
      if st4.mappings.length > 0 then
        (st4.mappings.map BoneMappingResult.confidence).sum / (jointsToMap.length : ℚ)
      else 0 }

/-- The whole body of `autoMapBones` for a joint list every key of which is
in the registry. -/
def autoMapBonesTotal (boneNames : List String) (jointsToMap : List String) :
    AutoMappingResult :=
  aggregate boneNames jointsToMap (runPasses boneNames jointsToMap)

/-- Source `autoMapBones(boneNames, allowedJoints?)`. `jointsToMap` is
`allowedJoints || ALL_JOINT_KEYS` (an empty supplied list is truthy and kept).
Pass 1 iterates every joint of `jointsToMap` unconditionally, so when any of
them is missing from the registry the `for … of` over the `undefined`
pattern list throws a `TypeError` before a result is produced: the call's
outcome is `none` exactly then, and no partial state escapes. -/
def autoMapBones (boneNames : List String) (allowedJoints : Option (List String)) :
    Option AutoMappingResult :=
  if (allowedJoints.getD ALL_JOINT_KEYS).all (fun j => (preprocessedPatterns j).isSome) then
    some (autoMapBonesTotal boneNames (allowedJoints.getD ALL_JOINT_KEYS))
  else none

/-- Pass 2 body with the exclusion condition `bone.original !==
pattern.original` removed, the variant the dead-code question compares
against: otherwise identical to `pass2Joint`. -/
def pass2JointNoExcl (bones : List Preprocessed) (st : MapState) (j : String) : MapState :=
  if st.mappedJoints.contains j then st
  else
    match (patternsOf j).findSome? (fun p =>
        bones.find? fun b =>
          !st.usedBones.contains b.original && b.stripped == p.stripped) with
    | some b => claimStep st j b confStripped "prefix-stripped"
    | none => st

/-- The four passes with `pass2JointNoExcl` in place of `pass2Joint`. -/
def runPassesNoExcl (boneNames : List String) (jointsToMap : List String) : MapState :=
  let bones := boneNames.map preprocess
  let st1 := jointsToMap.foldl (pass1Joint bones) ⟨[], [], []⟩
  let st2 := jointsToMap.foldl (pass2JointNoExcl bones)
    ⟨st1.usedBones, st1.mappings, st1.mappings.map BoneMappingResult.jointKey⟩
  let st3 := jointsToMap.foldl (pass3Joint bones) st2
  jointsToMap.foldl (pass4Joint bones) st3

/-- The `autoMapBones` variant built on the exclusion-free pass 2. -/
def autoMapBonesNoExcl (boneNames : List String) (allowedJoints : Option (List String)) :
    Option AutoMappingResult :=
  if (allowedJoints.getD ALL_JOINT_KEYS).all (fun j => (preprocessedPatterns j).isSome) then
    some (aggregate boneNames (allowedJoints.getD ALL_JOINT_KEYS)
      (runPassesNoExcl boneNames (allowedJoints.getD ALL_JOINT_KEYS)))
  else none

/-- Source `ConfidenceLabel`. -/
structure ConfidenceLabel where
  text : String
  color : String
  deriving DecidableEq, Repr

/-- Source `getConfidenceLabel(confidence)`: thresholds 1.0, 0.9, 0.8 with
inclusive lower bounds. -/
def getConfidenceLabel (confidence : ℚ) : ConfidenceLabel :=
  if confidence ≥ 1 then ⟨"Exact", "text-green-400"⟩
  else if confidence ≥ 9/10 then ⟨"High", "text-blue-400"⟩
  else if confidence ≥ 4/5 then ⟨"Medium", "text-yellow-400"⟩
  else ⟨"Low", "text-orange-400"⟩

/-- Number of joints attempted by a call: the length of the supplied
`allowedJoints` list, or the registry joint count when it is omitted. -/
def attemptedCount (allowedJoints : Option (List String)) : Nat :=
  match allowedJoints with
  | some l => l.length
  | none => ALL_JOINT_KEYS.length

/-- Invariant of the matching state maintained by passes 2-4 (and holding on
entry to pass 2): claimed bone names are distinct and all marked used,
claimed joint keys are distinct, `mappedJoints` holds exactly the claimed
joint keys, and every claimed joint comes from `jointsToMap`. -/
def StateInv (jointsToMap : List String) (st : MapState) : Prop :=
  (st.mappings.map BoneMappingResult.boneName).Nodup ∧
  (∀ m ∈ st.mappings, m.boneName ∈ st.usedBones) ∧
  (st.mappings.map BoneMappingResult.jointKey).Nodup ∧
  (∀ x, x ∈ st.mappedJoints ↔ x ∈ st.mappings.map BoneMappingResult.jointKey) ∧
  (∀ m ∈ st.mappings, m.jointKey ∈ jointsToMap)

/-! Helper lemmas shared by the claim theorems. -/

theorem contains_iff_mem {l : List String} {x : String} :
    l.contains x = true ↔ x ∈ l :=
  List.elem_iff

theorem contains_eq_false_iff {l : List String} {x : String} :
    l.contains x = false ↔ ¬ x ∈ l := by
  rw [← contains_iff_mem, Bool.not_eq_true]

theorem find?_congr_mem {α : Type} {p q : α → Bool} :
    ∀ {l : List α}, (∀ a ∈ l, p a = q a) → l.find? p = l.find? q
  | [], _ => rfl
  | a :: l, h => by
    have ha := h a (List.mem_cons_self a l)
    by_cases hp : p a = true
    · rw [List.find?_cons_of_pos _ hp, List.find?_cons_of_pos _ (ha ▸ hp)]
    · rw [List.find?_cons_of_neg _ hp, List.find?_cons_of_neg _ (ha ▸ hp),
        find?_congr_mem (fun x hx => h x (List.mem_cons_of_mem _ hx))]

theorem findSome?_congr_mem {α β : Type} {f g : α → Option β} :
    ∀ {l : List α}, (∀ a ∈ l, f a = g a) → l.findSome? f = l.findSome? g
  | [], _ => rfl
  | a :: l, h => by
    rw [List.findSome?_cons, List.findSome?_cons, h a (List.mem_cons_self a l)]
    cases g a with
    | some b => rfl
    | none => exact findSome?_congr_mem (fun x hx => h x (List.mem_cons_of_mem _ hx))

theorem nodup_append_singleton {l : List String} {x : String}
    (h : l.Nodup) (hx : ¬ x ∈ l) : (l ++ [x]).Nodup := by
  rw [List.nodup_append]
  exact ⟨h, List.nodup_singleton x, fun a ha hamem => by
    rw [List.mem_singleton] at hamem
    exact hx (hamem ▸ ha)⟩

theorem autoMapBones_some (boneNames : List String) (allowedJoints : Option (List String))
    (h : (allowedJoints.getD ALL_JOINT_KEYS).all
      (fun j => (preprocessedPatterns j).isSome) = true) :
    autoMapBones boneNames allowedJoints =
      some (autoMapBonesTotal boneNames (allowedJoints.getD ALL_JOINT_KEYS)) := by
  unfold autoMapBones
  rw [if_pos h]

/-- C5: with boneNames `["Hips","LeftUpLeg","RightUpLeg"]` and allowedJoints
`["leftHipPitch","leftHipYaw"]`, leftHipPitch claims "LeftUpLeg" in pass 1
with confidence 1.0, and leftHipYaw — whose alias list also holds
"LeftUpLeg" — ends in `unmappedJoints`, the earlier-processed joint keeping
the contested bone. -/
theorem autoMapBones_scenarioB :
    autoMapBones ["Hips", "LeftUpLeg", "RightUpLeg"] (some ["leftHipPitch", "leftHipYaw"]) =
      some { mappings := [⟨"leftHipPitch", "LeftUpLeg", 1, "exact"⟩]
             unmappedJoints := ["leftHipYaw"]
             unmappedBones := ["Hips", "RightUpLeg"]
             overallConfidence := 1/2 } := by
  rw [autoMapBones_some _ _ (by decide)]
  unfold autoMapBonesTotal
  rw [show runPasses ["Hips", "LeftUpLeg", "RightUpLeg"]
        ((some ["leftHipPitch", "leftHipYaw"]).getD ALL_JOINT_KEYS) =
      ⟨["LeftUpLeg"], [⟨"leftHipPitch", "LeftUpLeg", 1, "exact"⟩], ["leftHipPitch"]⟩
    from by decide]
  unfold aggregate
  refine congrArg some ?_
  rw [AutoMappingResult.mk.injEq]
  refine ⟨rfl, by decide, by decide, ?_⟩
  rw [if_pos (by decide)]
  norm_num

set_option maxRecDepth 200000 in
/-- C3 (amended): on scenario A's Mixamo bones with the default joint set,
torso resolves in pass 1 to "mixamorig:Spine"; leftShoulderPitch and
rightShoulderPitch resolve already in pass 1 — "mixamorig:LeftArm" and
"mixamorig:RightArm" are literal aliases of those joints — with confidence
1.0, not in pass 2 at 0.9; neckYaw, neckPitch and all hip, knee, ankle,
wrist and grip joints stay unmapped. -/
theorem autoMapBones_scenarioA :
    autoMapBones ["mixamorig:Hips", "mixamorig:Spine", "mixamorig:LeftArm",
        "mixamorig:RightArm"] none =
      some { mappings := [⟨"torso", "mixamorig:Spine", 1, "exact"⟩,
                          ⟨"leftShoulderPitch", "mixamorig:LeftArm", 1, "exact"⟩,
                          ⟨"rightShoulderPitch", "mixamorig:RightArm", 1, "exact"⟩]
             unmappedJoints := ["neckYaw", "neckPitch", "leftShoulderYaw", "leftElbow",
               "leftWrist", "leftGrip", "rightShoulderYaw", "rightElbow", "rightWrist",
               "rightGrip", "leftHipPitch", "leftHipYaw", "leftKnee", "leftAnkle",
               "rightHipPitch", "rightHipYaw", "rightKnee", "rightAnkle"]
             unmappedBones := ["mixamorig:Hips"]
             overallConfidence := 1/7 } := by
  rw [autoMapBones_some _ _ (by decide)]
  unfold autoMapBonesTotal
  rw [show runPasses ["mixamorig:Hips", "mixamorig:Spine", "mixamorig:LeftArm",
        "mixamorig:RightArm"] (Option.getD none ALL_JOINT_KEYS) =
      ⟨["mixamorig:RightArm", "mixamorig:LeftArm", "mixamorig:Spine"],
       [⟨"torso", "mixamorig:Spine", 1, "exact"⟩,
        ⟨"leftShoulderPitch", "mixamorig:LeftArm", 1, "exact"⟩,
        ⟨"rightShoulderPitch", "mixamorig:RightArm", 1, "exact"⟩],
       ["torso", "leftShoulderPitch", "rightShoulderPitch"]⟩
    from by decide]
  unfold aggregate
  refine congrArg some ?_
  rw [AutoMappingResult.mk.injEq]
  refine ⟨rfl, by decide, by decide, ?_⟩
  rw [if_pos (by decide), show (Option.getD none ALL_JOINT_KEYS).length = 21 from by decide]
  norm_num

set_option maxRecDepth 200000 in
/-- C3's claim of a pass-2 resolution is false: in scenario A the mapping
entry for leftShoulderPitch carries confidence 1.0 and pass tag "exact", not
confidence 0.9 with tag "prefix-stripped". -/
theorem autoMapBones_scenarioA_counterexample :
    ((autoMapBones ["mixamorig:Hips", "mixamorig:Spine", "mixamorig:LeftArm",
        "mixamorig:RightArm"] none).map fun r =>
      r.mappings.filter fun m => m.jointKey == "leftShoulderPitch") =
      some [⟨"leftShoulderPitch", "mixamorig:LeftArm", 1, "exact"⟩] ∧
    ¬ (1 : ℚ) = 9/10 ∧ ¬ "exact" = "prefix-stripped" := by
  refine ⟨by decide, by norm_num, by decide⟩

/-- C1's universal injectivity claim fails when the supplied allowedJoints
list repeats a key: pass 1 has no mapped-joint guard, so with
`allowedJoints = ["torso","torso"]` the joint key "torso" claims two bones
and appears twice among the mappings. -/
theorem autoMapBones_injective_counterexample :
    ((autoMapBones ["Hips", "Spine"] (some ["torso", "torso"])).map fun r =>
      r.mappings.map BoneMappingResult.jointKey) = some ["torso", "torso"] ∧
    ¬ (["torso", "torso"] : List String).Nodup := by
  refine ⟨by decide, by decide⟩

/-- C4's coverage bound fails for a duplicated allowedJoints entry: with
bones `["Hips"]` and `allowedJoints = ["torso","torso"]` only one mapping is
produced and no joint is reported unmapped, so the sum is 1, not 2. -/
theorem autoMapBones_coverage_counterexample :
    ((autoMapBones ["Hips"] (some ["torso", "torso"])).map fun r =>
      (r.mappings.length, r.unmappedJoints.length)) = some (1, 0) ∧
    1 + 0 ≠ (["torso", "torso"] : List String).length := by
  refine ⟨by decide, by decide⟩

/-- C2's claim that an unknown allowed-joint entry is silently reported
unmapped is false: the call aborts (the modelled `TypeError`) instead of
returning a result. -/
theorem autoMapBones_unknown_joint_counterexample :
    autoMapBones ["Hips"] (some ["bogusJoint"]) = none := by decide

/-- C2 (amended): whenever the supplied allowedJoints list contains an entry
that is not a key of the pattern registry, `autoMapBones` does not return
normally: pass 1 iterates over that entry's `undefined` pattern list and the
call throws a `TypeError`, modelled as the outcome `none`; the entry is
never reported in `unmappedJoints`. -/
theorem autoMapBones_unknown_joint_throws (boneNames : List String)
    (allowedJoints : List String) (j : String) (hj : j ∈ allowedJoints)
    (hreg : (preprocessedPatterns j).isSome = false) :
    autoMapBones boneNames (some allowedJoints) = none := by
  unfold autoMapBones
  rw [if_neg]
  intro hall
  have hmem : j ∈ (some allowedJoints).getD ALL_JOINT_KEYS := hj
  have := List.all_eq_true.mp hall j hmem
  rw [hreg] at this
  exact Bool.false_ne_true this

theorem autoMapBones_unknown_joint_throws_witness :
    ("bogusJoint" ∈ ["bogusJoint"] ∧
      (preprocessedPatterns "bogusJoint").isSome = false) ∧
    autoMapBones ["Hips"] (some ["bogusJoint"]) = none :=
  ⟨⟨by decide, by decide⟩,
   autoMapBones_unknown_joint_throws ["Hips"] ["bogusJoint"] "bogusJoint"
     (by decide) (by decide)⟩

/-- C9: `getConfidenceLabel` is a step function with inclusive lower
bounds — text "Exact" from 1.0 up, "High" on [0.9, 1.0), "Medium" on
[0.8, 0.9), "Low" below 0.8 — and in particular 1.0 labels "Exact", 0.85
labels "Medium", 0.3 labels "Low". -/
theorem getConfidenceLabel_step :
    (∀ c : ℚ, 1 ≤ c → (getConfidenceLabel c).text = "Exact") ∧
    (∀ c : ℚ, 9/10 ≤ c → c < 1 → (getConfidenceLabel c).text = "High") ∧
    (∀ c : ℚ, 4/5 ≤ c → c < 9/10 → (getConfidenceLabel c).text = "Medium") ∧
    (∀ c : ℚ, c < 4/5 → (getConfidenceLabel c).text = "Low") ∧
    (getConfidenceLabel 1).text = "Exact" ∧
    (getConfidenceLabel (17/20)).text = "Medium" ∧
    (getConfidenceLabel (3/10)).text = "Low" := by
  refine ⟨fun c h => ?_, fun c h1 h2 => ?_, fun c h1 h2 => ?_, fun c h => ?_, ?_, ?_, ?_⟩
  · rw [getConfidenceLabel, if_pos h]
  · rw [getConfidenceLabel, if_neg (by exact not_le.mpr h2), if_pos h1]
  · rw [getConfidenceLabel, if_neg (by exact not_le.mpr (by linarith)),
      if_neg (by exact not_le.mpr h2), if_pos h1]
  · rw [getConfidenceLabel, if_neg (by exact not_le.mpr (by linarith)),
      if_neg (by exact not_le.mpr (by linarith)), if_neg (by exact not_le.mpr h)]
  · norm_num [getConfidenceLabel]
  · norm_num [getConfidenceLabel]
  · norm_num [getConfidenceLabel]

theorem getConfidenceLabel_step_witness :
    (getConfidenceLabel 1).text = "Exact" ∧ (getConfidenceLabel (19/20)).text = "High" ∧
    (getConfidenceLabel (17/20)).text = "Medium" ∧ (getConfidenceLabel (1/2)).text = "Low" :=
  ⟨getConfidenceLabel_step.1 1 (by norm_num),
   getConfidenceLabel_step.2.1 (19/20) (by norm_num) (by norm_num),
   getConfidenceLabel_step.2.2.1 (17/20) (by norm_num) (by norm_num),
   getConfidenceLabel_step.2.2.2.1 (1/2) (by norm_num)⟩

theorem pass1Joint_cases (bones : List Preprocessed) (st : MapState) (j : String) :
    pass1Joint bones st j = st ∨
    ∃ b, st.usedBones.contains b.original = false ∧
      pass1Joint bones st j = claimStep st j b confExact "exact" := by
  unfold pass1Joint
  split
  next b hfs =>
    right
    obtain ⟨l₁, p, l₂, hsplit, hfp, hrest⟩ := List.findSome?_eq_some_iff.mp hfs
    refine ⟨b, ?_, rfl⟩
    split at hfp
    next bb hbn =>
      split at hfp
      next hc => exact absurd hfp (by simp)
      next hc =>
        obtain rfl : bb = b := Option.some.inj hfp
        exact Bool.not_eq_true _ ▸ hc
    next hbn => exact absurd hfp (by simp)
  next hfs => left; rfl

theorem pass2Joint_cases (bones : List Preprocessed) (st : MapState) (j : String) :
    pass2Joint bones st j = st ∨
    (st.mappedJoints.contains j = false ∧
     ∃ b, st.usedBones.contains b.original = false ∧
       pass2Joint bones st j = claimStep st j b confStripped "prefix-stripped") := by
  unfold pass2Joint
  by_cases hg : st.mappedJoints.contains j = true
  · rw [if_pos hg]; left; rfl
  · rw [if_neg hg]
    split
    next b hfs =>
      right
      refine ⟨Bool.not_eq_true _ ▸ hg, b, ?_, rfl⟩
      obtain ⟨l₁, p, l₂, hsplit, hfp, hrest⟩ := List.findSome?_eq_some_iff.mp hfs
      have hpred := List.find?_some hfp
      rw [Bool.and_eq_true, Bool.and_eq_true] at hpred
      exact (by simpa using hpred.1.1)
    next hfs => left; rfl

theorem pass3Joint_cases (bones : List Preprocessed) (st : MapState) (j : String) :
    pass3Joint bones st j = st ∨
    (st.mappedJoints.contains j = false ∧
     ∃ b, st.usedBones.contains b.original = false ∧
       pass3Joint bones st j = claimStep st j b confNormalized "normalized") := by
  unfold pass3Joint
  by_cases hg : st.mappedJoints.contains j = true
  · rw [if_pos hg]; left; rfl
  · rw [if_neg hg]
    split
    next b hfs =>
      right
      refine ⟨Bool.not_eq_true _ ▸ hg, b, ?_, rfl⟩
      obtain ⟨l₁, p, l₂, hsplit, hfp, hrest⟩ := List.findSome?_eq_some_iff.mp hfs
      have hpred := List.find?_some hfp
      exact (by simpa using hpred)
    next hfs => left; rfl

theorem pass4Joint_cases (bones : List Preprocessed) (st : MapState) (j : String) :
    pass4Joint bones st j = st ∨
    (st.mappedJoints.contains j = false ∧
     ∃ b, st.usedBones.contains b.original = false ∧
       pass4Joint bones st j = claimStep st j b confWordBoundary "word-boundary") := by
  unfold pass4Joint
  by_cases hg : st.mappedJoints.contains j = true
  · rw [if_pos hg]; left; rfl
  · rw [if_neg hg]
    split
    next b hfs =>
      right
      refine ⟨Bool.not_eq_true _ ▸ hg, b, ?_, rfl⟩
      obtain ⟨l₁, p, l₂, hsplit, hfp, hrest⟩ := List.findSome?_eq_some_iff.mp hfs
      split at hfp
      next hemp => exact absurd hfp (by simp)
      next hemp =>
        have hpred := List.find?_some hfp
        rw [Bool.and_eq_true, Bool.and_eq_true] at hpred
        exact (by simpa using hpred.1.1)
    next hfs => left; rfl

theorem StateInv_claimStep {jointsToMap : List String} {st : MapState} {j : String}
    {b : Preprocessed} {conf : ℚ} {pass : String}
    (inv : StateInv jointsToMap st)
    (hb : st.usedBones.contains b.original = false)
    (hjm : j ∈ jointsToMap)
    (hjk : ¬ j ∈ st.mappings.map BoneMappingResult.jointKey) :
    StateInv jointsToMap (claimStep st j b conf pass) := by
  obtain ⟨A, B, C, D, E⟩ := inv
  have hbnot : ¬ b.original ∈ st.usedBones := contains_eq_false_iff.mp hb
  refine ⟨?_, ?_, ?_, ?_, ?_⟩
  · rw [claimStep]
    simp only [List.map_append, List.map_cons, List.map_nil]
    refine nodup_append_singleton A ?_
    intro hmem
    obtain ⟨m, hm, hmb⟩ := List.mem_map.mp hmem
    exact hbnot (hmb ▸ B m hm)
  · intro m hm
    rw [claimStep] at hm ⊢
    rcases List.mem_append.mp hm with hm | hm
    · exact List.mem_cons_of_mem _ (B m hm)
    · rw [List.mem_singleton] at hm
      subst hm
      exact List.mem_cons_self _ _
  · rw [claimStep]
    simp only [List.map_append, List.map_cons, List.map_nil]
    exact nodup_append_singleton C hjk
  · intro x
    rw [claimStep]
    simp only [List.map_append, List.map_cons, List.map_nil, List.mem_cons,
      List.mem_append, List.mem_singleton]
    rw [D x]
    constructor
    · rintro (h | h)
      · exact Or.inr (Or.inl h)
      · exact Or.inl h
    · rintro (h | h | h)
      · exact Or.inr h
      · exact Or.inl h
      · exact absurd h (List.not_mem_nil x)
  · intro m hm
    rw [claimStep] at hm
    rcases List.mem_append.mp hm with hm | hm
    · exact E m hm
    · rw [List.mem_singleton] at hm
      subst hm
      exact hjm

theorem StateInv_pass2Joint (bones : List Preprocessed) {jointsToMap : List String}
    {st : MapState} {j : String} (hj : j ∈ jointsToMap)
    (inv : StateInv jointsToMap st) : StateInv jointsToMap (pass2Joint bones st j) := by
  rcases pass2Joint_cases bones st j with h | ⟨hg, b, hb, h⟩
  · rw [h]; exact inv
  · rw [h]
    refine StateInv_claimStep inv hb hj fun hk => ?_
    exact contains_eq_false_iff.mp hg ((inv.2.2.2.1 j).mpr hk)

theorem StateInv_pass3Joint (bones : List Preprocessed) {jointsToMap : List String}
    {st : MapState} {j : String} (hj : j ∈ jointsToMap)
    (inv : StateInv jointsToMap st) : StateInv jointsToMap (pass3Joint bones st j) := by
  rcases pass3Joint_cases bones st j with h | ⟨hg, b, hb, h⟩
  · rw [h]; exact inv
  · rw [h]
    refine StateInv_claimStep inv hb hj fun hk => ?_
    exact contains_eq_false_iff.mp hg ((inv.2.2.2.1 j).mpr hk)

theorem StateInv_pass4Joint (bones : List Preprocessed) {jointsToMap : List String}
    {st : MapState} {j : String} (hj : j ∈ jointsToMap)
    (inv : StateInv jointsToMap st) : StateInv jointsToMap (pass4Joint bones st j) := by
  rcases pass4Joint_cases bones st j with h | ⟨hg, b, hb, h⟩
  · rw [h]; exact inv
  · rw [h]
    refine StateInv_claimStep inv hb hj fun hk => ?_
    exact contains_eq_false_iff.mp hg ((inv.2.2.2.1 j).mpr hk)

theorem StateInv_foldl {jointsToMap : List String} {f : MapState → String → MapState}
    (hf : ∀ st j, j ∈ jointsToMap → StateInv jointsToMap st → StateInv jointsToMap (f st j)) :
    ∀ (js : List String), (∀ j ∈ js, j ∈ jointsToMap) →
      ∀ st, StateInv jointsToMap st → StateInv jointsToMap (js.foldl f st)
  | [], _, _, inv => inv
  | j :: js, hsub, st, inv =>
    StateInv_foldl hf js (fun x hx => hsub x (List.mem_cons_of_mem _ hx))
      (f st j) (hf st j (hsub j (List.mem_cons_self _ _)) inv)

theorem pass1_fold_inv (bones : List Preprocessed) (jointsToMap : List String) :
    ∀ (js : List String) (st : MapState),
      (∀ j ∈ js, j ∈ jointsToMap) → js.Nodup →
      (∀ j ∈ js, ¬ j ∈ st.mappings.map BoneMappingResult.jointKey) →
      (st.mappings.map BoneMappingResult.boneName).Nodup →
      (∀ m ∈ st.mappings, m.boneName ∈ st.usedBones) →
      (st.mappings.map BoneMappingResult.jointKey).Nodup →
      (∀ m ∈ st.mappings, m.jointKey ∈ jointsToMap) →
      ((js.foldl (pass1Joint bones) st).mappings.map BoneMappingResult.boneName).Nodup ∧
      (∀ m ∈ (js.foldl (pass1Joint bones) st).mappings,
        m.boneName ∈ (js.foldl (pass1Joint bones) st).usedBones) ∧
      ((js.foldl (pass1Joint bones) st).mappings.map BoneMappingResult.jointKey).Nodup ∧
      (∀ m ∈ (js.foldl (pass1Joint bones) st).mappings, m.jointKey ∈ jointsToMap)
  | [], st, _, _, _, hA, hB, hC, hE => ⟨hA, hB, hC, hE⟩
  | j :: js, st, hsub, hnd, hnew, hA, hB, hC, hE => by
    have hsub2 : ∀ x ∈ js, x ∈ jointsToMap := fun x hx => hsub x (List.mem_cons_of_mem _ hx)
    have hnd2 : js.Nodup := hnd.of_cons
    rcases pass1Joint_cases bones st j with h | ⟨b, hb, h⟩
    · rw [List.foldl_cons, h]
      exact pass1_fold_inv bones jointsToMap js st hsub2 hnd2
        (fun x hx => hnew x (List.mem_cons_of_mem _ hx)) hA hB hC hE
    · rw [List.foldl_cons, h]
      have hbnot : ¬ b.original ∈ st.usedBones := contains_eq_false_iff.mp hb
      refine pass1_fold_inv bones jointsToMap js (claimStep st j b confExact "exact")
        hsub2 hnd2 ?_ ?_ ?_ ?_ ?_
      · intro x hx
        rw [claimStep]
        simp only [List.map_append, List.map_cons, List.map_nil]
        intro hmem
        rcases List.mem_append.mp hmem with hmem | hmem
        · exact hnew x (List.mem_cons_of_mem _ hx) hmem
        · rw [List.mem_singleton] at hmem
          exact (List.rel_of_pairwise_cons hnd hx) hmem.symm
      · rw [claimStep]
        simp only [List.map_append, List.map_cons, List.map_nil]
        refine nodup_append_singleton hA ?_
        intro hmem
        obtain ⟨m, hm, hmb⟩ := List.mem_map.mp hmem
        exact hbnot (hmb ▸ hB m hm)
      · intro m hm
        rw [claimStep] at hm ⊢
        rcases List.mem_append.mp hm with hm | hm
        · exact List.mem_cons_of_mem _ (hB m hm)
        · rw [List.mem_singleton] at hm
          subst hm
          exact List.mem_cons_self _ _
      · rw [claimStep]
        simp only [List.map_append, List.map_cons, List.map_nil]
        exact nodup_append_singleton hC (hnew j (List.mem_cons_self _ _))
      · intro m hm
        rw [claimStep] at hm
        rcases List.mem_append.mp hm with hm | hm
        · exact hE m hm
        · rw [List.mem_singleton] at hm
          subst hm
          exact hsub j (List.mem_cons_self _ _)

theorem runPasses_StateInv (boneNames : List String) {jointsToMap : List String}
    (hnd : jointsToMap.Nodup) : StateInv jointsToMap (runPasses boneNames jointsToMap) := by
  have h1 := pass1_fold_inv (boneNames.map preprocess) jointsToMap jointsToMap
    ⟨[], [], []⟩ (fun j hj => hj) hnd (by intro j hj h; exact absurd h (List.not_mem_nil j))
    List.nodup_nil (by intro m hm; exact absurd hm (List.not_mem_nil m)) List.nodup_nil
    (by intro m hm; exact absurd hm (List.not_mem_nil m))
  have h2 : StateInv jointsToMap
      ⟨(jointsToMap.foldl (pass1Joint (boneNames.map preprocess)) ⟨[], [], []⟩).usedBones,
       (jointsToMap.foldl (pass1Joint (boneNames.map preprocess)) ⟨[], [], []⟩).mappings,
       (jointsToMap.foldl (pass1Joint (boneNames.map preprocess)) ⟨[], [], []⟩).mappings.map
         BoneMappingResult.jointKey⟩ :=
    ⟨h1.1, h1.2.1, h1.2.2.1, fun x => Iff.rfl, h1.2.2.2⟩
  have h3 := StateInv_foldl
    (fun st j hj inv => StateInv_pass2Joint (boneNames.map preprocess) hj inv)
    jointsToMap (fun j hj => hj) _ h2
  have h4 := StateInv_foldl
    (fun st j hj inv => StateInv_pass3Joint (boneNames.map preprocess) hj inv)
    jointsToMap (fun j hj => hj) _ h3
  have h5 := StateInv_foldl
    (fun st j hj inv => StateInv_pass4Joint (boneNames.map preprocess) hj inv)
    jointsToMap (fun j hj => hj) _ h4
  exact h5

theorem autoMapBones_some_inv {boneNames : List String} {allowedJoints : Option (List String)}
    {r : AutoMappingResult} (h : autoMapBones boneNames allowedJoints = some r) :
    r = autoMapBonesTotal boneNames (allowedJoints.getD ALL_JOINT_KEYS) := by
  unfold autoMapBones at h
  split at h
  · exact (Option.some.inj h).symm
  · exact absurd h (by simp)

/-- C1 (amended): the mappings of every `autoMapBones` result form an
injective partial function whenever the processed joint list has no
duplicate entries — in particular always when `allowedJoints` is omitted.
The boneName side holds unconditionally; a duplicated entry in a supplied
`allowedJoints` can repeat a jointKey, since pass 1 carries no
already-mapped guard. -/
theorem autoMapBones_mappings_injective (boneNames : List String)
    (allowedJoints : Option (List String)) (r : AutoMappingResult)
    (h : autoMapBones boneNames allowedJoints = some r)
    (hnd : (allowedJoints.getD ALL_JOINT_KEYS).Nodup) :
    (r.mappings.map BoneMappingResult.boneName).Nodup ∧
    (r.mappings.map BoneMappingResult.jointKey).Nodup := by
  obtain rfl := autoMapBones_some_inv h
  have inv := runPasses_StateInv boneNames hnd
  exact ⟨inv.1, inv.2.2.1⟩

theorem attemptedCount_eq (allowedJoints : Option (List String)) :
    attemptedCount allowedJoints = (allowedJoints.getD ALL_JOINT_KEYS).length := by
  cases allowedJoints <;> rfl

theorem autoMapBones_mappings_injective_witness :
    ∃ r, autoMapBones ["Hips", "LeftUpLeg", "RightUpLeg"]
        (some ["leftHipPitch", "leftHipYaw"]) = some r ∧
      ((some ["leftHipPitch", "leftHipYaw"] : Option (List String)).getD ALL_JOINT_KEYS).Nodup ∧
      (r.mappings.map BoneMappingResult.boneName).Nodup ∧
      (r.mappings.map BoneMappingResult.jointKey).Nodup := by
  have hr := autoMapBones_some ["Hips", "LeftUpLeg", "RightUpLeg"]
    (some ["leftHipPitch", "leftHipYaw"]) (by decide)
  exact ⟨_, hr, by decide,
    autoMapBones_mappings_injective ["Hips", "LeftUpLeg", "RightUpLeg"]
      (some ["leftHipPitch", "leftHipYaw"]) _ hr (by decide)⟩

/-- C4 (amended): whenever the processed joint list has no duplicate
entries — in particular always when `allowedJoints` is omitted —
`mappings.length + unmappedJoints.length` equals `allowedJoints.length` when
supplied and the registry joint count otherwise; a duplicated supplied entry
can break the bound. -/
theorem autoMapBones_coverage (boneNames : List String)
    (allowedJoints : Option (List String)) (r : AutoMappingResult)
    (h : autoMapBones boneNames allowedJoints = some r)
    (hnd : (allowedJoints.getD ALL_JOINT_KEYS).Nodup) :
    r.mappings.length + r.unmappedJoints.length = attemptedCount allowedJoints := by
  obtain rfl := autoMapBones_some_inv h
  obtain ⟨A, B, C, D, E⟩ := runPasses_StateInv boneNames hnd
  rw [attemptedCount_eq]
  show (runPasses boneNames (allowedJoints.getD ALL_JOINT_KEYS)).mappings.length +
      ((allowedJoints.getD ALL_JOINT_KEYS).filter fun j =>
        !(runPasses boneNames (allowedJoints.getD ALL_JOINT_KEYS)).mappedJoints.contains j).length =
      (allowedJoints.getD ALL_JOINT_KEYS).length
  set st4 := runPasses boneNames (allowedJoints.getD ALL_JOINT_KEYS) with hst4
  set js := allowedJoints.getD ALL_JOINT_KEYS with hjs
  have hperm := (List.filter_append_perm (fun j => !st4.mappedJoints.contains j) js).length_eq
  rw [List.length_append] at hperm
  have hff : (js.filter fun j => !(!st4.mappedJoints.contains j)) =
      js.filter fun j => st4.mappedJoints.contains j :=
    List.filter_congr fun x _ => Bool.not_not _
  rw [hff] at hperm
  have hmemiff : ∀ x, x ∈ (js.filter fun j => st4.mappedJoints.contains j) ↔
      x ∈ st4.mappings.map BoneMappingResult.jointKey := by
    intro x
    rw [List.mem_filter]
    constructor
    · rintro ⟨hx, hc⟩
      exact (D x).mp (contains_iff_mem.mp hc)
    · intro hx
      obtain ⟨m, hm, hmx⟩ := List.mem_map.mp hx
      exact ⟨hmx ▸ E m hm, contains_iff_mem.mpr ((D x).mpr hx)⟩
  have hpermK : List.Perm (js.filter fun j => st4.mappedJoints.contains j)
      (st4.mappings.map BoneMappingResult.jointKey) :=
    (List.perm_ext_iff_of_nodup (hnd.filter _) C).mpr hmemiff
  have hlenK : (js.filter fun j => st4.mappedJoints.contains j).length =
      st4.mappings.length := by
    rw [hpermK.length_eq, List.length_map]
  omega

theorem autoMapBones_coverage_witness :
    ∃ r, autoMapBones ["Hips", "LeftUpLeg", "RightUpLeg"]
        (some ["leftHipPitch", "leftHipYaw"]) = some r ∧
      ((some ["leftHipPitch", "leftHipYaw"] : Option (List String)).getD ALL_JOINT_KEYS).Nodup ∧
      r.mappings.length + r.unmappedJoints.length =
        attemptedCount (some ["leftHipPitch", "leftHipYaw"]) := by
  have hr := autoMapBones_some ["Hips", "LeftUpLeg", "RightUpLeg"]
    (some ["leftHipPitch", "leftHipYaw"]) (by decide)
  exact ⟨_, hr, by decide,
    autoMapBones_coverage ["Hips", "LeftUpLeg", "RightUpLeg"]
      (some ["leftHipPitch", "leftHipYaw"]) _ hr (by decide)⟩

/-- C6: the overall confidence of every `autoMapBones` result is the sum of
the mapping confidences divided by the number of joints attempted —
`allowedJoints.length` when supplied, the registry joint count otherwise —
and it is 0 when no mapping was produced or no joint was attempted. -/
theorem autoMapBones_overallConfidence (boneNames : List String)
    (allowedJoints : Option (List String)) (r : AutoMappingResult)
    (h : autoMapBones boneNames allowedJoints = some r) :
    r.overallConfidence = (r.mappings.map BoneMappingResult.confidence).sum /
      (attemptedCount allowedJoints : ℚ) ∧
    (r.mappings = [] → r.overallConfidence = 0) ∧
    (allowedJoints = some [] → r.overallConfidence = 0) := by
  obtain rfl := autoMapBones_some_inv h
  rw [attemptedCount_eq]
  set st4 := runPasses boneNames (allowedJoints.getD ALL_JOINT_KEYS) with hst4
  refine ⟨?_, ?_, ?_⟩
  · show (if st4.mappings.length > 0 then
        (st4.mappings.map BoneMappingResult.confidence).sum /
          ((allowedJoints.getD ALL_JOINT_KEYS).length : ℚ)
      else 0) = (st4.mappings.map BoneMappingResult.confidence).sum /
        ((allowedJoints.getD ALL_JOINT_KEYS).length : ℚ)
    by_cases hlen : st4.mappings.length > 0
    · rw [if_pos hlen]
    · rw [if_neg hlen]
      have hmaps : st4.mappings = [] := List.length_eq_zero.mp (by omega)
      rw [hmaps]
      simp
  · intro hmaps
    have hmaps2 : st4.mappings = [] := hmaps
    show (if st4.mappings.length > 0 then
        (st4.mappings.map BoneMappingResult.confidence).sum /
          ((allowedJoints.getD ALL_JOINT_KEYS).length : ℚ)
      else 0) = 0
    rw [hmaps2]
    simp
  · intro haj
    subst haj
    rfl

theorem autoMapBones_overallConfidence_witness :
    ∃ r, autoMapBones ["Hips", "LeftUpLeg", "RightUpLeg"]
        (some ["leftHipPitch", "leftHipYaw"]) = some r ∧
      r.overallConfidence = (r.mappings.map BoneMappingResult.confidence).sum /
        (attemptedCount (some ["leftHipPitch", "leftHipYaw"]) : ℚ) := by
  have hr := autoMapBones_some ["Hips", "LeftUpLeg", "RightUpLeg"]
    (some ["leftHipPitch", "leftHipYaw"]) (by decide)
  exact ⟨_, hr,
    (autoMapBones_overallConfidence ["Hips", "LeftUpLeg", "RightUpLeg"]
      (some ["leftHipPitch", "leftHipYaw"]) _ hr).1⟩

theorem foldl_fixed {α : Type} {f : MapState → α → MapState}
    (hf : ∀ st a, f st a = st) : ∀ (l : List α) (st : MapState), l.foldl f st = st
  | [], _ => rfl
  | a :: l, st => by rw [List.foldl_cons, hf st a]; exact foldl_fixed hf l st

theorem pass1Joint_nil (st : MapState) (j : String) : pass1Joint [] st j = st := by
  unfold pass1Joint
  rw [show (patternsOf j).findSome? (fun p =>
      match boneByName [] p.original with
      | some b => if st.usedBones.contains b.original then none else some b
      | none => none) = none from List.findSome?_eq_none_iff.mpr fun p hp => rfl]

theorem pass2Joint_nil (st : MapState) (j : String) : pass2Joint [] st j = st := by
  unfold pass2Joint
  by_cases hg : st.mappedJoints.contains j = true
  · rw [if_pos hg]
  · rw [if_neg hg]
    rw [show (patternsOf j).findSome? (fun p =>
        ([] : List Preprocessed).find? fun b =>
          !st.usedBones.contains b.original && b.stripped == p.stripped &&
            b.original != p.original) = none from
      List.findSome?_eq_none_iff.mpr fun p hp => rfl]

theorem pass3Joint_nil (st : MapState) (j : String) : pass3Joint [] st j = st := by
  unfold pass3Joint
  by_cases hg : st.mappedJoints.contains j = true
  · rw [if_pos hg]
  · rw [if_neg hg]
    rw [show (patternsOf j).findSome? (fun p =>
        (boneByNormalized [] p.normalized).find? fun b =>
          !st.usedBones.contains b.original) = none from
      List.findSome?_eq_none_iff.mpr fun p hp => rfl]

theorem pass4Joint_nil (st : MapState) (j : String) : pass4Joint [] st j = st := by
  unfold pass4Joint
  by_cases hg : st.mappedJoints.contains j = true
  · rw [if_pos hg]
  · rw [if_neg hg]
    rw [show (patternsOf j).findSome? (fun p =>
        if p.tokens.isEmpty then none
        else
          ([] : List Preprocessed).find? fun b =>
            !st.usedBones.contains b.original && !b.tokens.isEmpty &&
              wordBoundaryMatch p.tokens b.tokens) = none from
      List.findSome?_eq_none_iff.mpr fun p hp => by
        by_cases hemp : p.tokens.isEmpty = true
        · rw [if_pos hemp]
        · rw [if_neg hemp]
          rfl]

theorem runPasses_nil (js : List String) : runPasses [] js = ⟨[], [], []⟩ := by
  have h1 : js.foldl (pass1Joint []) ⟨[], [], []⟩ = ⟨[], [], []⟩ :=
    foldl_fixed pass1Joint_nil js _
  have h2 : js.foldl (pass2Joint []) ⟨[], [], []⟩ = ⟨[], [], []⟩ :=
    foldl_fixed pass2Joint_nil js _
  have h3 : js.foldl (pass3Joint []) ⟨[], [], []⟩ = ⟨[], [], []⟩ :=
    foldl_fixed pass3Joint_nil js _
  have h4 : js.foldl (pass4Joint []) ⟨[], [], []⟩ = ⟨[], [], []⟩ :=
    foldl_fixed pass4Joint_nil js _
  show List.foldl (pass4Joint []) (List.foldl (pass3Joint []) (List.foldl (pass2Joint [])
      { usedBones := (List.foldl (pass1Joint []) ⟨[], [], []⟩ js).usedBones
        mappings := (List.foldl (pass1Joint []) ⟨[], [], []⟩ js).mappings
        mappedJoints := (List.foldl (pass1Joint []) ⟨[], [], []⟩ js).mappings.map
          BoneMappingResult.jointKey }
      js) js) js = ⟨[], [], []⟩
  rw [h1]
  show List.foldl (pass4Joint []) (List.foldl (pass3Joint [])
      (List.foldl (pass2Joint []) ⟨[], [], []⟩ js) js) js = ⟨[], [], []⟩
  rw [h2, h3, h4]

/-- C7: for every type-valid optional allowedJoints list, an empty boneNames
list is accepted and yields no mappings, the full requested joint set as
`unmappedJoints`, no unmapped bones, and overall confidence 0. -/
theorem autoMapBones_empty_boneNames (allowedJoints : Option (List String))
    (h : (allowedJoints.getD ALL_JOINT_KEYS).all
      (fun j => (preprocessedPatterns j).isSome) = true) :
    autoMapBones [] allowedJoints =
      some { mappings := [], unmappedJoints := allowedJoints.getD ALL_JOINT_KEYS,
             unmappedBones := [], overallConfidence := 0 } := by
  rw [autoMapBones_some [] allowedJoints h]
  refine congrArg some ?_
  unfold autoMapBonesTotal aggregate
  rw [runPasses_nil]
  rw [AutoMappingResult.mk.injEq]
  exact ⟨rfl, List.filter_eq_self.mpr fun a ha => rfl, rfl, rfl⟩

theorem autoMapBones_empty_boneNames_witness :
    ((some ["torso"] : Option (List String)).getD ALL_JOINT_KEYS).all
        (fun j => (preprocessedPatterns j).isSome) = true ∧
    autoMapBones [] (some ["torso"]) = some ⟨[], ["torso"], [], 0⟩ :=
  ⟨by decide, autoMapBones_empty_boneNames (some ["torso"]) (by decide)⟩

theorem foldl_mono {f : MapState → String → MapState}
    (hf : ∀ st j, (∀ x ∈ st.usedBones, x ∈ (f st j).usedBones) ∧
                  (∀ m ∈ st.mappings, m ∈ (f st j).mappings) ∧
                  (∀ x ∈ st.mappedJoints, x ∈ (f st j).mappedJoints)) :
    ∀ (js : List String) (st : MapState),
      (∀ x ∈ st.usedBones, x ∈ (js.foldl f st).usedBones) ∧
      (∀ m ∈ st.mappings, m ∈ (js.foldl f st).mappings) ∧
      (∀ x ∈ st.mappedJoints, x ∈ (js.foldl f st).mappedJoints)
  | [], _ => ⟨fun _ hx => hx, fun _ hm => hm, fun _ hx => hx⟩
  | j :: js, st => by
    have hstep := hf st j
    have hrest := foldl_mono hf js (f st j)
    rw [List.foldl_cons]
    exact ⟨fun x hx => hrest.1 x (hstep.1 x hx),
           fun m hm => hrest.2.1 m (hstep.2.1 m hm),
           fun x hx => hrest.2.2 x (hstep.2.2 x hx)⟩

theorem claimStep_mono (st : MapState) (j : String) (b : Preprocessed)
    (conf : ℚ) (pass : String) :
    (∀ x ∈ st.usedBones, x ∈ (claimStep st j b conf pass).usedBones) ∧
    (∀ m ∈ st.mappings, m ∈ (claimStep st j b conf pass).mappings) ∧
    (∀ x ∈ st.mappedJoints, x ∈ (claimStep st j b conf pass).mappedJoints) :=
  ⟨fun x hx => List.mem_cons_of_mem _ hx,
   fun m hm => List.mem_append.mpr (Or.inl hm),
   fun x hx => List.mem_cons_of_mem _ hx⟩

theorem pass1Joint_mono (bones : List Preprocessed) (st : MapState) (j : String) :
    (∀ x ∈ st.usedBones, x ∈ (pass1Joint bones st j).usedBones) ∧
    (∀ m ∈ st.mappings, m ∈ (pass1Joint bones st j).mappings) ∧
    (∀ x ∈ st.mappedJoints, x ∈ (pass1Joint bones st j).mappedJoints) := by
  rcases pass1Joint_cases bones st j with h | ⟨b, hb, h⟩
  · rw [h]
    exact ⟨fun _ hx => hx, fun _ hm => hm, fun _ hx => hx⟩
  · rw [h]
    exact claimStep_mono st j b confExact "exact"

theorem pass2Joint_mono (bones : List Preprocessed) (st : MapState) (j : String) :
    (∀ x ∈ st.usedBones, x ∈ (pass2Joint bones st j).usedBones) ∧
    (∀ m ∈ st.mappings, m ∈ (pass2Joint bones st j).mappings) ∧
    (∀ x ∈ st.mappedJoints, x ∈ (pass2Joint bones st j).mappedJoints) := by
  rcases pass2Joint_cases bones st j with h | ⟨hg, b, hb, h⟩
  · rw [h]
    exact ⟨fun _ hx => hx, fun _ hm => hm, fun _ hx => hx⟩
  · rw [h]
    exact claimStep_mono st j b confStripped "prefix-stripped"

theorem pass1_fold_exhaust (bones : List Preprocessed) :
    ∀ (js : List String) (st : MapState) (j : String), j ∈ js →
      ¬ j ∈ ((js.foldl (pass1Joint bones) st).mappings.map BoneMappingResult.jointKey) →
      ∀ p ∈ patternsOf j, ∀ b ∈ bones, b.original = p.original →
        b.original ∈ (js.foldl (pass1Joint bones) st).usedBones
  | [], _, j, hj, _ => absurd hj (List.not_mem_nil j)
  | j0 :: js, st, j, hj, hnk => by
    intro p hp b hb heq
    rw [List.foldl_cons] at hnk ⊢
    rcases List.mem_cons.mp hj with rfl | hj2
    · cases hfs : (patternsOf j).findSome? (fun q =>
          match boneByName bones q.original with
          | some bb => if st.usedBones.contains bb.original then none else some bb
          | none => none) with
      | some b2 =>
        have hstep : pass1Joint bones st j = claimStep st j b2 confExact "exact" := by
          unfold pass1Joint
          rw [hfs]
        exfalso
        apply hnk
        have hmem : (⟨j, b2.original, confExact, "exact"⟩ : BoneMappingResult) ∈
            (pass1Joint bones st j).mappings := by
          rw [hstep, claimStep]
          exact List.mem_append.mpr (Or.inr (List.mem_singleton.mpr rfl))
        have hmem2 := (foldl_mono (pass1Joint_mono bones) js (pass1Joint bones st j)).2.1 _ hmem
        exact List.mem_map.mpr ⟨_, hmem2, rfl⟩
      | none =>
        have hstep : pass1Joint bones st j = st := by
          unfold pass1Joint
          rw [hfs]
        have hall := List.findSome?_eq_none_iff.mp hfs p hp
        cases hbn : boneByName bones p.original with
        | none =>
          exfalso
          have hnone := List.find?_eq_none.mp hbn b (List.mem_reverse.mpr hb)
          exact hnone (by rw [heq]; exact beq_self_eq_true _)
        | some bb =>
          rw [hbn] at hall
          have hall2 : (if st.usedBones.contains bb.original = true then none
              else some bb) = (none : Option Preprocessed) := hall
          by_cases hc : st.usedBones.contains bb.original = true
          · have hpred := List.find?_some hbn
            have hbbp : bb.original = p.original := by simpa using hpred
            have hmem : b.original ∈ st.usedBones := by
              rw [heq, ← hbbp]
              exact contains_iff_mem.mp hc
            rw [hstep]
            exact (foldl_mono (pass1Joint_mono bones) js st).1 b.original hmem
          · rw [if_neg hc] at hall2
            exact absurd hall2 (by simp)
    · exact pass1_fold_exhaust bones js (pass1Joint bones st j0) j hj2 hnk p hp b hb heq

theorem pass2_fold_congr (bones : List Preprocessed) :
    ∀ (js : List String) (st : MapState),
      (∀ j ∈ js, ¬ j ∈ st.mappedJoints →
        ∀ p ∈ patternsOf j, ∀ b ∈ bones, b.original = p.original →
          b.original ∈ st.usedBones) →
      js.foldl (pass2JointNoExcl bones) st = js.foldl (pass2Joint bones) st
  | [], _, _ => rfl
  | j0 :: js, st, H => by
    rw [List.foldl_cons, List.foldl_cons]
    have hstep : pass2JointNoExcl bones st j0 = pass2Joint bones st j0 := by
      unfold pass2JointNoExcl pass2Joint
      by_cases hg : st.mappedJoints.contains j0 = true
      · rw [if_pos hg, if_pos hg]
      · rw [if_neg hg, if_neg hg]
        have hg2 : ¬ j0 ∈ st.mappedJoints :=
          contains_eq_false_iff.mp (Bool.not_eq_true _ ▸ hg)
        have hH := H j0 (List.mem_cons_self _ _) hg2
        rw [show ((patternsOf j0).findSome? fun p =>
            bones.find? fun b =>
              !st.usedBones.contains b.original && b.stripped == p.stripped) =
            (patternsOf j0).findSome? fun p =>
            bones.find? fun b =>
              !st.usedBones.contains b.original && b.stripped == p.stripped &&
                b.original != p.original from
          findSome?_congr_mem fun p hp => find?_congr_mem fun b hbmem => by
            by_cases hcu : st.usedBones.contains b.original = true
            · rw [hcu]
              rfl
            · have hcu2 : st.usedBones.contains b.original = false :=
                Bool.not_eq_true _ ▸ hcu
              by_cases hstr : (b.stripped == p.stripped) = true
              · have hne : b.original ≠ p.original := fun heq2 =>
                  hcu (contains_iff_mem.mpr (hH p hp b hbmem heq2))
                have hbne : (b.original != p.original) = true := by
                  simpa using hne
                rw [hcu2, hstr, hbne]
                rfl
              · have hstr2 : (b.stripped == p.stripped) = false :=
                  Bool.not_eq_true _ ▸ hstr
                rw [hcu2, hstr2]
                rfl]
    rw [hstep]
    exact pass2_fold_congr bones js (pass2Joint bones st j0) fun j hj hnm p hp b hb heq => by
      have hmono := pass2Joint_mono bones st j0
      have hnm2 : ¬ j ∈ st.mappedJoints := fun hmem => hnm (hmono.2.2 j hmem)
      exact hmono.1 _ (H j (List.mem_cons_of_mem _ hj) hnm2 p hp b hb heq)

theorem runPassesNoExcl_eq (boneNames js : List String) :
    runPassesNoExcl boneNames js = runPasses boneNames js := by
  have hcong := pass2_fold_congr (boneNames.map preprocess) js
    ⟨(List.foldl (pass1Joint (boneNames.map preprocess)) ⟨[], [], []⟩ js).usedBones,
     (List.foldl (pass1Joint (boneNames.map preprocess)) ⟨[], [], []⟩ js).mappings,
     (List.foldl (pass1Joint (boneNames.map preprocess)) ⟨[], [], []⟩ js).mappings.map
       BoneMappingResult.jointKey⟩
    (fun j hj hnm p hp b hb heq =>
      pass1_fold_exhaust (boneNames.map preprocess) js ⟨[], [], []⟩ j hj
        (fun hk => hnm hk) p hp b hb heq)
  show List.foldl (pass4Joint (boneNames.map preprocess))
      (List.foldl (pass3Joint (boneNames.map preprocess))
        (List.foldl (pass2JointNoExcl (boneNames.map preprocess))
          ⟨(List.foldl (pass1Joint (boneNames.map preprocess)) ⟨[], [], []⟩ js).usedBones,
           (List.foldl (pass1Joint (boneNames.map preprocess)) ⟨[], [], []⟩ js).mappings,
           (List.foldl (pass1Joint (boneNames.map preprocess)) ⟨[], [], []⟩ js).mappings.map
             BoneMappingResult.jointKey⟩
          js) js) js =
    List.foldl (pass4Joint (boneNames.map preprocess))
      (List.foldl (pass3Joint (boneNames.map preprocess))
        (List.foldl (pass2Joint (boneNames.map preprocess))
          ⟨(List.foldl (pass1Joint (boneNames.map preprocess)) ⟨[], [], []⟩ js).usedBones,
           (List.foldl (pass1Joint (boneNames.map preprocess)) ⟨[], [], []⟩ js).mappings,
           (List.foldl (pass1Joint (boneNames.map preprocess)) ⟨[], [], []⟩ js).mappings.map
             BoneMappingResult.jointKey⟩
          js) js) js
  rw [hcong]

/-- C8: removing pass 2's exclusion condition `bone.original !==
pattern.original` never changes the result of `autoMapBones`: whenever a
still-unmapped joint reaches pass 2, every bone whose raw name equals one of
that joint's raw aliases was already claimed during pass 1, so the condition
is never the sole reason a pass-2 match is skipped. -/
theorem autoMapBones_pass2_exclusion_redundant (boneNames : List String)
    (allowedJoints : Option (List String)) :
    autoMapBonesNoExcl boneNames allowedJoints = autoMapBones boneNames allowedJoints := by
  unfold autoMapBonesNoExcl autoMapBones autoMapBonesTotal
  rw [runPassesNoExcl_eq]

theorem isSep_lowerChar (c : Char) (h : isSep c = false) : isSep (lowerChar c) = false := by
  unfold lowerChar
  cases hf : lowerPairs.find? fun q => q.1 == c with
  | none => exact h
  | some q =>
    have hmem := List.mem_of_find?_eq_some hf
    have hall : ∀ q2 ∈ lowerPairs, isSep q2.2 = false := by decide
    exact hall q hmem

theorem stripPrefixChars_drop (cs : List Char) : ∃ k, stripPrefixChars cs = cs.drop k := by
  unfold stripPrefixChars
  repeat' split
  exacts [⟨10, rfl⟩, ⟨10, rfl⟩, ⟨9, rfl⟩, ⟨4, rfl⟩, ⟨4, rfl⟩, ⟨4, rfl⟩,
    ⟨0, (List.drop_zero cs).symm⟩]

theorem hasCamelBreak_tail {cs : List Char} (h : hasCamelBreak cs = false) :
    hasCamelBreak cs.tail = false := by
  match cs with
  | [] => rfl
  | [c] => rfl
  | c1 :: c2 :: rest =>
    unfold hasCamelBreak at h
    exact (Bool.or_eq_false_iff.mp h).2

theorem hasCamelBreak_drop {cs : List Char} (h : hasCamelBreak cs = false) :
    ∀ k, hasCamelBreak (cs.drop k) = false
  | 0 => by rw [List.drop_zero]; exact h
  | k + 1 => by
    rw [← List.tail_drop]
    exact hasCamelBreak_tail (hasCamelBreak_drop h k)

theorem splitSeps_no_sep :
    ∀ (cs : List Char) (acc : List Char), (∀ c ∈ cs, isSep c = false) →
      splitSeps acc cs = [acc.reverse ++ cs]
  | [], acc, _ => by rw [splitSeps, List.append_nil]
  | c :: cs, acc, h => by
    rw [splitSeps, if_neg]
    · rw [splitSeps_no_sep cs (c :: acc) fun x hx => h x (List.mem_cons_of_mem _ hx)]
      rw [List.reverse_cons, List.append_assoc, List.singleton_append]
    · rw [h c (List.mem_cons_self _ _)]
      exact Bool.false_ne_true

theorem camelSplit_no_break :
    ∀ (cs : List Char) (acc : List Char), hasCamelBreak cs = false →
      camelSplit acc cs = [acc.reverse ++ cs]
  | [], acc, _ => by rw [camelSplit, List.append_nil]
  | [c], acc, _ => by rw [camelSplit, List.reverse_cons]
  | c1 :: c2 :: rest, acc, h => by
    unfold hasCamelBreak at h
    obtain ⟨h1, h2⟩ := Bool.or_eq_false_iff.mp h
    rw [camelSplit, if_neg]
    · rw [camelSplit_no_break (c2 :: rest) (c1 :: acc) h2]
      rw [List.reverse_cons, List.append_assoc, List.singleton_append]
    · rw [h1]
      exact Bool.false_ne_true

/-- C10 (amended): for every name whose prefix-stripped form is nonempty and
that contains no separator characters and no camelCase case transition,
`tokenize` returns exactly one token, equal to `normalizeBoneName` of the
name. A name that is empty — or that is exactly a strippable prefix such as
"mixamorig" — strips to the empty string and yields zero tokens instead. -/
theorem tokenize_single_token (name : String)
    (hsep : ∀ c ∈ name.data, isSep c = false)
    (hcase : hasCamelBreak name.data = false)
    (hne : stripPrefixChars name.data ≠ []) :
    tokenize name = [normalizeBoneName name] := by
  obtain ⟨k, hk⟩ := stripPrefixChars_drop name.data
  have hsep2 : ∀ c ∈ stripPrefixChars name.data, isSep c = false := by
    rw [hk]
    exact fun c hc => hsep c (List.mem_of_mem_drop hc)
  have hcase2 : hasCamelBreak (stripPrefixChars name.data) = false := by
    rw [hk]
    exact hasCamelBreak_drop hcase k
  have hemp : (stripPrefixChars name.data).isEmpty = false := by
    cases hcs : stripPrefixChars name.data with
    | nil => exact absurd hcs hne
    | cons c cs => rfl
  simp only [tokenize]
  rw [splitSeps_no_sep _ _ hsep2, List.reverse_nil, List.nil_append,
    List.foldl_cons, List.foldl_nil, if_neg (by simp [hemp]),
    camelSplit_no_break _ _ hcase2, List.reverse_nil, List.nil_append,
    List.filterMap_cons]
  rw [if_neg (by simp [hemp]), List.filterMap_nil,
    List.nil_append]
  unfold normalizeBoneName
  have hfilter : ((stripPrefixChars name.data).map lowerChar).filter
      (fun c => !isSep c) = (stripPrefixChars name.data).map lowerChar :=
    List.filter_eq_self.mpr fun c hc => by
      obtain ⟨c0, hc0, rfl⟩ := List.mem_map.mp hc
      rw [isSep_lowerChar c0 (hsep2 c0 hc0)]
      rfl
  rw [hfilter]

theorem tokenize_single_token_witness :
    (∀ c ∈ "Hips".data, isSep c = false) ∧
    hasCamelBreak "Hips".data = false ∧
    stripPrefixChars "Hips".data ≠ [] ∧
    tokenize "Hips" = [normalizeBoneName "Hips"] :=
  ⟨by decide, by decide, by decide,
   tokenize_single_token "Hips" (by decide) (by decide) (by decide)⟩

/-- C10's claim fails on names that strip to the empty string: the empty
name, and the bare prefix "mixamorig" — both contain no separator and no
case transition, yet `tokenize` returns zero tokens, not one. -/
theorem tokenize_single_token_counterexample :
    tokenize "" = [] ∧ tokenize "mixamorig" = [] ∧
    (∀ c ∈ "mixamorig".data, isSep c = false) ∧
    hasCamelBreak "mixamorig".data = false ∧
    normalizeBoneName "mixamorig" = "" :=
  ⟨by decide, by decide, by decide, by decide, by decide⟩

end BoneMapping
